import Mathlib

/-!
Verification of the DVMH program generator and the shared-memory DVMH
parallelization pass (`lib/APC/DVMHWriter.cpp`,
`lib/Transform/Clang/DVMHSMAutoPar.cpp`, `src/ASTImportInfo.h`).

Shallow embedding conventions:
* `clang::SourceLocation` and `clang::FileID` are natural numbers
  (`getRawEncoding`), `clang::SourceManager` queries are a record of functions;
* `llvm::DenseMap` / `llvm::StringMap` are association lists in insertion
  order, `try_emplace` inserts only when the key is absent;
* the `clang::Rewriter` is an append-only log of performed
  `InsertTextBefore` calls, each entry a pair of location and inserted text;
* diagnostics (`toDiag`) are an append-only list of `Diag` values.
-/

/-- Association-list lookup, first match wins (models `DenseMap::find` /
`StringMap::find` on the insertion-ordered entry list). -/
def alookup {α β : Type} [DecidableEq α] : List (α × β) → α → Option β
  | [], _ => none
  | p :: rest, k => if p.1 = k then some p.2 else alookup rest k

/-- Models `try_emplace`: inserts the pair only when the key is absent. -/
def tryEmplace {α β : Type} [DecidableEq α] (l : List (α × β)) (k : α) (v : β) :
    List (α × β) :=
  match alookup l k with
  | some _ => l
  | none => l ++ [(k, v)]

theorem alookup_append_of_some {α β : Type} [DecidableEq α]
    {l : List (α × β)} {k : α} {v : β} (m : List (α × β))
    (h : alookup l k = some v) : alookup (l ++ m) k = some v := by
  induction l with
  | nil => simp [alookup] at h
  | cons p rest ih =>
    by_cases hk : p.1 = k
    · simpa [alookup, hk] using h
    · simp [alookup, hk] at h ⊢
      exact ih h

theorem alookup_append_of_none {α β : Type} [DecidableEq α]
    {l : List (α × β)} {k : α} (m : List (α × β))
    (h : alookup l k = none) : alookup (l ++ m) k = alookup m k := by
  induction l with
  | nil => simp
  | cons p rest ih =>
    by_cases hk : p.1 = k
    · simp [alookup, hk] at h
    · simp [alookup, hk] at h ⊢
      exact ih h

theorem alookup_tryEmplace_self {α β : Type} [DecidableEq α]
    {l : List (α × β)} {k : α} {v : β}
    (h : alookup l k = none) : alookup (tryEmplace l k v) k = some v := by
  simp only [tryEmplace, h]
  rw [alookup_append_of_none _ h]
  simp [alookup]

theorem alookup_tryEmplace_of_some {α β : Type} [DecidableEq α]
    {l : List (α × β)} {k k2 : α} {v v2 : β}
    (h : alookup l k = some v) : alookup (tryEmplace l k2 v2) k = some v := by
  unfold tryEmplace
  cases hl : alookup l k2 with
  | some w => exact h
  | none => exact alookup_append_of_some _ h

/-- Diagnostics emitted by the writer through `toDiag`; constructors mirror the
diagnostic identifiers appearing in the source. -/
inductive Diag where
  | insertDirectiveErr (loc : Nat) (text : String)
  | insertMacroPrevent (loc : Nat)
  | notSingleDeclStmt (loc : Nat)
  | insertMultipleDirectives (loc : Nat)
  | noProperDefinition (name : String)
  | insertIncludePrevent (loc : Nat)
  | insertTemplateErr (name : String)
  deriving DecidableEq, Repr

/-- The `clang::SourceManager` queries used by `APCDVMHWriter`, supplied as an
abstract environment: file name and file id of a location, decomposed offset,
start-of-file location of a file id, start-of-line location, whether a location
is inside a macro expansion, whether a file id is an include file
(`getDecomposedIncludedLoc(FID).first.isValid()`), and the preamble size of a
file (`Lexer::ComputePreamble`). -/
structure SrcMgr where
  filenameOf : Nat → String
  fileIdOf : Nat → Nat
  offsetOf : Nat → Nat
  startOfFile : Nat → Nat
  startOfLine : Nat → Nat
  isMacroLoc : Nat → Bool
  isIncludeFile : Nat → Bool
  preambleSize : Nat → Nat

/-- Mutable state of `APCDVMHWriter` during one module invocation: the list of
already transformed files (`mTransformedFiles`), the ledger of already inserted
directives (`mInsertedDirs`), the rewriter edit log and the diagnostics. -/
structure WriterState where
  mTransformedFiles : List (String × Nat)
  mInsertedDirs : List (Nat × String)
  edits : List (Nat × String)
  diags : List Diag
  deriving DecidableEq, Repr

/-- `APCDVMHWriter::getLocationToTransform`: if the file containing `loc` has
already been transformed, redirect `loc` to the equivalent offset of the
transformed representation, otherwise return `loc` unchanged. -/
def getLocationToTransform (mgr : SrcMgr) (s : WriterState) (loc : Nat) : Nat :=
  match alookup s.mTransformedFiles (mgr.filenameOf loc) with
  | none => loc
  | some fid => mgr.startOfFile fid + mgr.offsetOf loc

/-- `APCDVMHWriter::insertDirective` (the version in `lib/APC/DVMHWriter.cpp`):
resolve the location, return silently when the identical directive is already
recorded there, report a conflict when a different directive is recorded, and
otherwise perform the insertion (with a leading newline when the location is
not at start of line) and record the file and the directive. -/
def insertDirective (mgr : SrcMgr) (s : WriterState) (whereLoc : Nat)
    (dirStr : String) : WriterState :=
  let w := getLocationToTransform mgr s whereLoc
  match alookup s.mInsertedDirs w with
  | some prev =>
    if prev = dirStr then s
    else { s with diags := s.diags ++
            [Diag.insertDirectiveErr w dirStr.trim,
             Diag.insertMultipleDirectives w] }
  | none =>
    { s with
      edits := s.edits ++ [(w, dirStr)] ++
        (if w ≠ mgr.startOfLine w then [(w, "\n")] else []),
      mTransformedFiles :=
        tryEmplace s.mTransformedFiles (mgr.filenameOf w) (mgr.fileIdOf w),
      mInsertedDirs := tryEmplace s.mInsertedDirs w dirStr }

/-- C1: when a different directive text was already inserted at the resolved
location, `insertDirective` applies no edit to the source text, leaves both
ledgers untouched (no silent overwrite), and reports the conflicting-directive
diagnostics naming the new directive text. -/
theorem C1_conflicting_directive_not_applied
    (mgr : SrcMgr) (s : WriterState) (l : Nat) (t1 t2 : String)
    (hprev : alookup s.mInsertedDirs (getLocationToTransform mgr s l) = some t1)
    (hne : t2 ≠ t1) :
    (insertDirective mgr s l t2).edits = s.edits ∧
    (insertDirective mgr s l t2).mInsertedDirs = s.mInsertedDirs ∧
    (insertDirective mgr s l t2).mTransformedFiles = s.mTransformedFiles ∧
    (insertDirective mgr s l t2).diags = s.diags ++
      [Diag.insertDirectiveErr (getLocationToTransform mgr s l) t2.trim,
       Diag.insertMultipleDirectives (getLocationToTransform mgr s l)] := by
  have hne1 : ¬ (t1 = t2) := fun h => hne h.symm
  simp [insertDirective, hprev, hne1]

def c1Mgr : SrcMgr :=
  { filenameOf := fun _ => ("f.c"), fileIdOf := fun _ => 0,
    offsetOf := fun l => l, startOfFile := fun _ => 0,
    startOfLine := fun l => l, isMacroLoc := fun _ => false,
    isIncludeFile := fun _ => false, preambleSize := fun _ => 0 }

def c1State : WriterState :=
  { mTransformedFiles := [], mInsertedDirs := [(5, "#pragma dvm array\n")],
    edits := [(5, "#pragma dvm array\n")], diags := [] }

/-- C1 witness: at a location already bound to one directive, inserting a
different directive changes neither the edit log nor the ledger. -/
theorem C1_witness :
    (insertDirective c1Mgr c1State 5 ("#pragma dvm align(x)\n")).edits =
      c1State.edits ∧
    (insertDirective c1Mgr c1State 5 ("#pragma dvm align(x)\n")).mInsertedDirs =
      c1State.mInsertedDirs :=
  ⟨(C1_conflicting_directive_not_applied c1Mgr c1State 5
      ("#pragma dvm array\n") ("#pragma dvm align(x)\n") rfl (by decide)).1,
   (C1_conflicting_directive_not_applied c1Mgr c1State 5
      ("#pragma dvm array\n") ("#pragma dvm align(x)\n") rfl (by decide)).2.1⟩

theorem insertDirective_same (mgr : SrcMgr) (s : WriterState) (l : Nat)
    (t : String)
    (h : alookup s.mInsertedDirs (getLocationToTransform mgr s l) = some t) :
    insertDirective mgr s l t = s := by
  simp [insertDirective, h]

theorem insertDirective_fresh (mgr : SrcMgr) (s : WriterState) (l : Nat)
    (t : String)
    (h : alookup s.mInsertedDirs (getLocationToTransform mgr s l) = none) :
    insertDirective mgr s l t =
      { s with
        edits := s.edits ++ [(getLocationToTransform mgr s l, t)] ++
          (if getLocationToTransform mgr s l ≠
              mgr.startOfLine (getLocationToTransform mgr s l) then
            [(getLocationToTransform mgr s l, "\n")] else []),
        mTransformedFiles := tryEmplace s.mTransformedFiles
          (mgr.filenameOf (getLocationToTransform mgr s l))
          (mgr.fileIdOf (getLocationToTransform mgr s l)),
        mInsertedDirs := tryEmplace s.mInsertedDirs
          (getLocationToTransform mgr s l) t } := by
  simp [insertDirective, h]

/-- C2: inserting the same directive text at the same location twice performs
exactly one textual insertion: the first call appends the single directive edit
(plus a leading-newline edit when needed), and the second call is a silent
no-op returning the state of the first call unchanged. -/
theorem C2_same_text_idempotent
    (mgr : SrcMgr) (s : WriterState) (l : Nat) (t : String)
    (hfresh : alookup s.mInsertedDirs (getLocationToTransform mgr s l) = none)
    (hcoh : mgr.startOfFile (mgr.fileIdOf l) + mgr.offsetOf l = l) :
    insertDirective mgr (insertDirective mgr s l t) l t =
      insertDirective mgr s l t ∧
    (insertDirective mgr s l t).edits = s.edits ++
      [(getLocationToTransform mgr s l, t)] ++
      (if getLocationToTransform mgr s l ≠
          mgr.startOfLine (getLocationToTransform mgr s l) then
        [(getLocationToTransform mgr s l, "\n")] else []) := by
  have hs1 := insertDirective_fresh mgr s l t hfresh
  refine ⟨?_, by rw [hs1]⟩
  have hresolve : getLocationToTransform mgr (insertDirective mgr s l t) l =
      getLocationToTransform mgr s l := by
    rw [hs1]
    cases htf : alookup s.mTransformedFiles (mgr.filenameOf l) with
    | none =>
      have hw : getLocationToTransform mgr s l = l := by
        unfold getLocationToTransform
        rw [htf]
      unfold getLocationToTransform
      simp only [hw, htf]
      rw [alookup_tryEmplace_self htf]
      exact hcoh
    | some fid =>
      unfold getLocationToTransform
      simp only [htf]
      rw [alookup_tryEmplace_of_some htf]
  have hledger : alookup (insertDirective mgr s l t).mInsertedDirs
      (getLocationToTransform mgr s l) = some t := by
    rw [hs1]
    exact alookup_tryEmplace_self hfresh
  exact insertDirective_same mgr (insertDirective mgr s l t) l t
    (by rw [hresolve]; exact hledger)

def c2State : WriterState :=
  { mTransformedFiles := [], mInsertedDirs := [], edits := [], diags := [] }

/-- C2 witness: inserting one directive twice at a fresh location of a concrete
source manager yields exactly one edit and an unchanged second call. -/
theorem C2_witness :
    insertDirective c1Mgr (insertDirective c1Mgr c2State 5
        ("#pragma dvm array\n")) 5 ("#pragma dvm array\n") =
      insertDirective c1Mgr c2State 5 ("#pragma dvm array\n") ∧
    (insertDirective c1Mgr c2State 5 ("#pragma dvm array\n")).edits =
      [(5, "#pragma dvm array\n")] := by
  have h := C2_same_text_idempotent c1Mgr c2State 5 ("#pragma dvm array\n")
    rfl (by decide)
  refine ⟨h.1, ?_⟩
  rw [h.2]
  decide

namespace MergedLocations

/-- `ASTImportInfo::MergedLocations::find`: scan the stored redeclaration
location lists and return the first list whose leading (original) location is
`loc`.  The C++ loop body is the only return statement of the function, so for
any argument that is not the head of a stored list control reaches the end of
the non-void function (undefined behavior); the embedding models that fall
through as `none`. -/
def find (mRedeclLocs : List (List Nat)) (loc : Nat) : Option (List Nat) :=
  match mRedeclLocs with
  | [] => none
  | locs :: rest => if locs.head? = some loc then some locs else find rest loc

end MergedLocations

/-- C10: `MergedLocations::find` executes a return statement (returning a valid
reference) exactly when the argument is the first (original) location of one of
the stored redeclaration-location lists, and the returned list is such a
stored list; for any other argument the function reaches the end of its body
without returning (undefined behavior, modelled as `none`), so callers such as
the redeclaration-alias propagation must pass only original locations. -/
theorem C10_find_requires_head_location (ls : List (List Nat)) (loc : Nat) :
    ((MergedLocations.find ls loc).isSome ↔
      ∃ locs, locs ∈ ls ∧ locs.head? = some loc) ∧
    (∀ r, MergedLocations.find ls loc = some r →
      r ∈ ls ∧ r.head? = some loc) := by
  induction ls with
  | nil => simp [MergedLocations.find]
  | cons locs rest ih =>
    by_cases h : locs.head? = some loc
    · refine ⟨?_, ?_⟩
      · simp only [MergedLocations.find, if_pos h, Option.isSome_some,
          true_iff]
        exact ⟨locs, List.mem_cons_self _ _, h⟩
      · intro r hr
        simp only [MergedLocations.find, if_pos h, Option.some.injEq] at hr
        subst hr
        exact ⟨List.mem_cons_self _ _, h⟩
    · refine ⟨?_, ?_⟩
      · simp only [MergedLocations.find, if_neg h]
        rw [ih.1]
        constructor
        · rintro ⟨l2, hl2, hh⟩
          exact ⟨l2, List.mem_cons_of_mem _ hl2, hh⟩
        · rintro ⟨l2, hl2, hh⟩
          rcases List.mem_cons.mp hl2 with rfl | hmem
          · exact absurd hh h
          · exact ⟨l2, hmem, hh⟩
      · intro r hr
        simp only [MergedLocations.find, if_neg h] at hr
        rcases ih.2 r hr with ⟨hmem, hh⟩
        exact ⟨List.mem_cons_of_mem _ hmem, hh⟩

/-- C10 witness: at the original location 3 of a concrete state, `find`
returns the stored list starting with 3. -/
theorem C10_witness :
    ([3, 4] ∈ [[1, 2], [3, 4]] ∧ ([3, 4] : List Nat).head? = some 3) :=
  (C10_find_requires_head_location [[1, 2], [3, 4]] 3).2 [3, 4] rfl

/-- Reduction kinds in declaration order (`RK_First` to `RK_NumberOf`; the
order sum, product, or, and, xor, max, min is modelled from the spec, the
enum itself being outside this excerpt). -/
inductive ReductionKind where
  | rkAdd | rkMult | rkOr | rkAnd | rkXor | rkMax | rkMin
  deriving DecidableEq, Repr

def reductionKinds : List ReductionKind :=
  [ReductionKind.rkAdd, ReductionKind.rkMult, ReductionKind.rkOr,
   ReductionKind.rkAnd, ReductionKind.rkXor, ReductionKind.rkMax,
   ReductionKind.rkMin]

/-- The reduction-kind token produced by the `switch` in `addReductionIfNeed`:
`RedKind` starts empty and each case appends its token with `+=`, except the
`RK_Xor` case, which reads `RedKind + "xor "` and discards the result of the
`+`, so for `RK_Xor` the token stays empty. -/
def redKindText : ReductionKind → String
  | ReductionKind.rkAdd => "sum"
  | ReductionKind.rkMult => "product"
  | ReductionKind.rkOr => "or"
  | ReductionKind.rkAnd => "and"
  | ReductionKind.rkXor => ""
  | ReductionKind.rkMax => "max"
  | ReductionKind.rkMin => "min"

/-- One `reduction(...)` group of `addReductionIfNeed`: the first variable and
then the comma-separated remaining variables, each wrapped as `kind(var)`. -/
def reductionGroup (kind : String) (vars : List String) : String :=
  match vars with
  | [] => ""
  | v :: vs =>
    "reduction(" ++ kind ++ "(" ++ v ++ ")" ++
      (vs.foldl (fun acc v2 => acc ++ "," ++ kind ++ "(" ++ v2 ++ ")") ("")) ++
      ")"

/-- `addReductionIfNeed`: for each reduction kind in declaration order with a
non-empty variable partition, append one `reduction(...)` clause to the
pragma string. -/
def addReductionIfNeed (varInfoList : ReductionKind → List String)
    (parallelFor : String) : String :=
  reductionKinds.foldl
    (fun acc k =>
      match varInfoList k with
      | [] => acc
      | v :: vs => acc ++ reductionGroup (redKindText k) (v :: vs))
    parallelFor

def c3XorOnly : ReductionKind → List String :=
  fun k => if k = ReductionKind.rkXor then [("x")] else []

/-- C3: evaluating the reduction-clause synthesis on a partition whose only
non-empty kind is `RK_Xor` yields `reduction((x))`: the group is emitted with
an empty kind token, which is none of the seven tokens sum, product, or, and,
xor, max, min, so the xor partition does not group under its kind token. -/
theorem C3_xor_kind_token_missing :
    addReductionIfNeed c3XorOnly ("") = "reduction((x))" ∧
    redKindText ReductionKind.rkXor ∉
      ["sum", "product", "or", "and", "xor", "max", "min"] :=
  ⟨rfl, by decide⟩

/-- `APCDVMHWriter::insertDataDirective` (the version in
`lib/APC/DVMHWriter.cpp`): refuse macro locations with diagnostics; insert
when the declaration has no recorded shape (declaration info is not available
for functions) or is a single-declarator statement; otherwise report the
non-single-declarator diagnostics. -/
def insertDataDirective (mgr : SrcMgr) (decls : List (Nat × Bool))
    (declLoc : Nat) (whereLoc : Nat) (dirStr : String) (s : WriterState) :
    WriterState :=
  if mgr.isMacroLoc whereLoc then
    { s with diags := s.diags ++
        [Diag.insertDirectiveErr whereLoc dirStr.trim,
         Diag.insertMacroPrevent declLoc] }
  else
    match alookup decls declLoc with
    | none => insertDirective mgr s whereLoc dirStr
    | some true => insertDirective mgr s whereLoc dirStr
    | some false =>
      { s with diags := s.diags ++
          [Diag.insertDirectiveErr whereLoc dirStr.trim,
           Diag.notSingleDeclStmt declLoc] }

/-- The three values of `VarDecl::isThisDeclarationADefinition`. -/
inductive DefKind where
  | definition | declarationOnly | tentativeDefinition
  deriving DecidableEq, Repr

/-- One redeclaration of a variable: its name location (`getLocation`), its
statement start location (`getLocStart`), its definition kind, whether its
file is an include file, and the merged location aliases recorded by the AST
importer for it (`ASTImportInfo::RedeclLocs`, given as the pair of the
name-location list and the start-location list that `MergedLocations::find`
returns for the two keys). -/
structure Redecl where
  loc : Nat
  startLoc : Nat
  kind : DefKind
  isInclude : Bool
  merged : Option (List Nat × List Nat)
  deriving Repr

/-- A source variable: its name, its own name location (`VD->getLocation()`)
and the redeclaration chain of its first declaration, in chain order. -/
structure VarDeclModel where
  name : String
  loc : Nat
  redecls : List Redecl
  deriving Repr

/-- One iteration of the redeclaration loop of `APCDVMHWriter::insertAlignment`
(state: writer state and `DefinitionLoc`): dispatch on the definition kind and
then propagate an `array` directive to every merged redeclaration location
alias distinct from the current one. -/
def insertAlignmentStep (mgr : SrcMgr) (decls : List (Nat × Bool))
    (align arrayDir : String) (acc : WriterState × Option Nat) (r : Redecl) :
    WriterState × Option Nat :=
  let next : WriterState × Option Nat :=
    match r.kind with
    | DefKind.definition => acc
    | DefKind.declarationOnly =>
      (insertDataDirective mgr decls r.loc r.startLoc arrayDir acc.1, acc.2)
    | DefKind.tentativeDefinition =>
      match acc.2 with
      | none =>
        if r.isInclude then
          (insertDataDirective mgr decls r.loc r.startLoc arrayDir acc.1, none)
        else
          (insertDataDirective mgr decls r.loc r.startLoc align acc.1,
           some r.loc)
      | some _ =>
        (insertDataDirective mgr decls r.loc r.startLoc align acc.1,
         some r.loc)
  match r.merged with
  | none => next
  | some (locs, startLocs) =>
    ((locs.zip startLocs).foldl
      (fun s2 p =>
        if p.1 = r.loc then s2
        else insertDataDirective mgr decls p.1 p.2 arrayDir s2) next.1,
     next.2)

/-- `APCDVMHWriter::insertAlignment`, starting after the construction of the
pragma texts (the `align` text is built by `getPragmaText`,
`extractTplDimsAlignmentIndexes` and `genStringExpr`, which live outside this
excerpt, so the `align` and `array` pragma texts are parameters): insert
`align` before the definition when `VD->getDefinition()` finds one, walk the
redeclarations inserting `array` before declarations-only (promoting tentative
definitions outside include files to the definition role), propagate `array`
to merged location aliases, and finally report the no-proper-definition
diagnostics naming the variable when no definition location was established.
Returns the final state and `DefinitionLoc`. -/
def insertAlignment (mgr : SrcMgr) (decls : List (Nat × Bool))
    (align arrayDir : String) (vd : VarDeclModel) (s0 : WriterState) :
    WriterState × Option Nat :=
  let start : WriterState × Option Nat :=
    match vd.redecls.find? (fun r => r.kind == DefKind.definition) with
    | some d =>
      (insertDataDirective mgr decls d.loc d.startLoc align s0, some d.loc)
    | none => (s0, none)
  let after := vd.redecls.foldl (insertAlignmentStep mgr decls align arrayDir)
    start
  match after.2 with
  | some defLoc => (after.1, some defLoc)
  | none =>
    ({ after.1 with diags := after.1.diags ++
        [Diag.insertDirectiveErr vd.loc align.trim,
         Diag.noProperDefinition vd.name] }, none)

def c9Vd : VarDeclModel :=
  { name := "a", loc := 10,
    redecls := [{ loc := 10, startLoc := 5, kind := DefKind.declarationOnly,
                  isInclude := false, merged := none }] }

/-- C9 counterexample: a variable with a single declaration-only
redeclaration and no definition anywhere.  The writer reports the
no-proper-definition diagnostic naming the variable, but it also inserts an
`array` directive before the declaration, so one directive is inserted for the
variable, not zero as the claim states. -/
theorem C9_counterexample :
    (insertAlignment c1Mgr [(10, true)] ("#pragma dvm align(x)\n")
        ("#pragma dvm array\n") c9Vd c2State).1.edits =
      [(5, "#pragma dvm array\n")] ∧
    Diag.noProperDefinition ("a") ∈
      (insertAlignment c1Mgr [(10, true)] ("#pragma dvm align(x)\n")
        ("#pragma dvm array\n") c9Vd c2State).1.diags := by
  constructor
  · rfl
  · decide

theorem insertDirective_conflict (mgr : SrcMgr) (s : WriterState) (l : Nat)
    (t prev : String)
    (h : alookup s.mInsertedDirs (getLocationToTransform mgr s l) = some prev)
    (hne : ¬ prev = t) :
    insertDirective mgr s l t = { s with diags := s.diags ++
      [Diag.insertDirectiveErr (getLocationToTransform mgr s l) t.trim,
       Diag.insertMultipleDirectives (getLocationToTransform mgr s l)] } := by
  simp [insertDirective, h, hne]

theorem insertDirective_edit_mem (mgr : SrcMgr) (s : WriterState) (w : Nat)
    (t : String) :
    ∀ e ∈ (insertDirective mgr s w t).edits,
      e ∈ s.edits ∨ e.2 = t ∨ e.2 = "\n" := by
  intro e he
  cases h : alookup s.mInsertedDirs (getLocationToTransform mgr s w) with
  | none =>
    rw [insertDirective_fresh mgr s w t h] at he
    have he2 : e ∈ s.edits ++ [(getLocationToTransform mgr s w, t)] ++
        (if getLocationToTransform mgr s w ≠
            mgr.startOfLine (getLocationToTransform mgr s w) then
          [(getLocationToTransform mgr s w, "\n")] else []) := he
    rcases List.mem_append.mp he2 with h1 | h2
    · rcases List.mem_append.mp h1 with h3 | h4
      · exact Or.inl h3
      · simp only [List.mem_singleton] at h4
        exact Or.inr (Or.inl (by rw [h4]))
    · by_cases hc : getLocationToTransform mgr s w ≠
          mgr.startOfLine (getLocationToTransform mgr s w)
      · rw [if_pos hc] at h2
        simp only [List.mem_singleton] at h2
        exact Or.inr (Or.inr (by rw [h2]))
      · rw [if_neg hc] at h2
        exact absurd h2 (List.not_mem_nil e)
  | some prev =>
    by_cases hp : prev = t
    · subst hp
      rw [insertDirective_same mgr s w prev h] at he
      exact Or.inl he
    · rw [insertDirective_conflict mgr s w t prev h hp] at he
      exact Or.inl he

theorem insertDataDirective_edit_mem (mgr : SrcMgr) (decls : List (Nat × Bool))
    (declLoc whereLoc : Nat) (t : String) (s : WriterState) :
    ∀ e ∈ (insertDataDirective mgr decls declLoc whereLoc t s).edits,
      e ∈ s.edits ∨ e.2 = t ∨ e.2 = "\n" := by
  intro e he
  unfold insertDataDirective at he
  by_cases hm : mgr.isMacroLoc whereLoc
  · rw [if_pos hm] at he
    exact Or.inl he
  · rw [if_neg hm] at he
    cases hd : alookup decls declLoc with
    | none =>
      simp only [hd] at he
      exact insertDirective_edit_mem mgr s whereLoc t e he
    | some b =>
      cases b with
      | true =>
        simp only [hd] at he
        exact insertDirective_edit_mem mgr s whereLoc t e he
      | false =>
        simp only [hd] at he
        exact Or.inl he

theorem mergedFold_edit_mem (mgr : SrcMgr) (decls : List (Nat × Bool))
    (arrayDir : String) (rloc : Nat) (ps : List (Nat × Nat)) (s : WriterState) :
    ∀ e ∈ (ps.foldl
        (fun s2 p => if p.1 = rloc then s2
          else insertDataDirective mgr decls p.1 p.2 arrayDir s2) s).edits,
      e ∈ s.edits ∨ e.2 = arrayDir ∨ e.2 = "\n" := by
  induction ps generalizing s with
  | nil => exact fun e he => Or.inl he
  | cons p rest ih =>
    intro e he
    simp only [List.foldl_cons] at he
    by_cases hp : p.1 = rloc
    · rw [if_pos hp] at he
      exact ih s e he
    · rw [if_neg hp] at he
      rcases ih _ e he with h | h
      · exact insertDataDirective_edit_mem mgr decls p.1 p.2 arrayDir s e h
      · exact Or.inr h

theorem insertAlignmentStep_no_def (mgr : SrcMgr) (decls : List (Nat × Bool))
    (align arrayDir : String) (s : WriterState) (r : Redecl)
    (hk : r.kind ≠ DefKind.definition)
    (ht : r.kind = DefKind.tentativeDefinition → r.isInclude = true) :
    (insertAlignmentStep mgr decls align arrayDir (s, none) r).2 = none ∧
    ∀ e ∈ (insertAlignmentStep mgr decls align arrayDir (s, none) r).1.edits,
      e ∈ s.edits ∨ e.2 = arrayDir ∨ e.2 = "\n" := by
  have hnext : (match r.kind with
      | DefKind.definition => ((s, none) : WriterState × Option Nat)
      | DefKind.declarationOnly =>
        (insertDataDirective mgr decls r.loc r.startLoc arrayDir s, none)
      | DefKind.tentativeDefinition =>
        match (none : Option Nat) with
        | none =>
          if r.isInclude then
            (insertDataDirective mgr decls r.loc r.startLoc arrayDir s, none)
          else
            (insertDataDirective mgr decls r.loc r.startLoc align s,
             some r.loc)
        | some _ =>
          (insertDataDirective mgr decls r.loc r.startLoc align s,
           some r.loc)) =
      (insertDataDirective mgr decls r.loc r.startLoc arrayDir s, none) ∨
      (match r.kind with
      | DefKind.definition => ((s, none) : WriterState × Option Nat)
      | DefKind.declarationOnly =>
        (insertDataDirective mgr decls r.loc r.startLoc arrayDir s, none)
      | DefKind.tentativeDefinition =>
        match (none : Option Nat) with
        | none =>
          if r.isInclude then
            (insertDataDirective mgr decls r.loc r.startLoc arrayDir s, none)
          else
            (insertDataDirective mgr decls r.loc r.startLoc align s,
             some r.loc)
        | some _ =>
          (insertDataDirective mgr decls r.loc r.startLoc align s,
           some r.loc)) = (s, none) := by
    cases hkind : r.kind with
    | definition => exact absurd hkind hk
    | declarationOnly => exact Or.inl rfl
    | tentativeDefinition =>
      have hinc := ht hkind
      rw [hinc]
      exact Or.inl rfl
  unfold insertAlignmentStep
  cases hm : r.merged with
  | none =>
    rcases hnext with h | h
    · rw [h]
      exact ⟨rfl, insertDataDirective_edit_mem mgr decls r.loc r.startLoc
        arrayDir s⟩
    · rw [h]
      exact ⟨rfl, fun e he => Or.inl he⟩
  | some p =>
    rcases hnext with h | h
    · rw [h]
      refine ⟨rfl, fun e he => ?_⟩
      rcases mergedFold_edit_mem mgr decls arrayDir r.loc (p.1.zip p.2) _ e he
        with h2 | h2
      · exact insertDataDirective_edit_mem mgr decls r.loc r.startLoc arrayDir
          s e h2
      · exact Or.inr h2
    · rw [h]
      exact ⟨rfl, mergedFold_edit_mem mgr decls arrayDir r.loc (p.1.zip p.2) s⟩

theorem insertAlignment_fold_no_def (mgr : SrcMgr) (decls : List (Nat × Bool))
    (align arrayDir : String) (rs : List Redecl) (s : WriterState)
    (hnodef : ∀ r ∈ rs, r.kind ≠ DefKind.definition)
    (htent : ∀ r ∈ rs, r.kind = DefKind.tentativeDefinition →
      r.isInclude = true) :
    (rs.foldl (insertAlignmentStep mgr decls align arrayDir) (s, none)).2 =
      none ∧
    ∀ e ∈ (rs.foldl (insertAlignmentStep mgr decls align arrayDir)
        (s, none)).1.edits,
      e ∈ s.edits ∨ e.2 = arrayDir ∨ e.2 = "\n" := by
  induction rs generalizing s with
  | nil => exact ⟨rfl, fun e he => Or.inl he⟩
  | cons r rest ih =>
    have hstep := insertAlignmentStep_no_def mgr decls align arrayDir s r
      (hnodef r (List.mem_cons_self _ _))
      (htent r (List.mem_cons_self _ _))
    have hrepr : insertAlignmentStep mgr decls align arrayDir (s, none) r =
        ((insertAlignmentStep mgr decls align arrayDir (s, none) r).1,
         none) :=
      Prod.ext_iff.mpr ⟨rfl, hstep.1⟩
    simp only [List.foldl_cons]
    rw [hrepr]
    have ihr := ih ((insertAlignmentStep mgr decls align arrayDir
        (s, none) r).1)
      (fun r2 h2 => hnodef r2 (List.mem_cons_of_mem _ h2))
      (fun r2 h2 => htent r2 (List.mem_cons_of_mem _ h2))
    refine ⟨ihr.1, fun e he => ?_⟩
    rcases ihr.2 e he with h | h
    · exact hstep.2 e h
    · exact Or.inr h

/-- C9 (amended): for a variable with no definition in any file (no
definition redeclaration, every tentative definition inside an include file),
`insertAlignment` establishes no definition location, reports the
no-proper-definition diagnostic naming the variable, and inserts no `align`
directive: every edit it adds carries the `array` pragma text or a separating
newline.  The original claim fails only in demanding zero directives: `array`
directives are still inserted before declaration-only redeclarations. -/
theorem C9_no_definition_diagnostic (mgr : SrcMgr) (decls : List (Nat × Bool))
    (align arrayDir : String) (vd : VarDeclModel) (s0 : WriterState)
    (hnodef : ∀ r ∈ vd.redecls, r.kind ≠ DefKind.definition)
    (htent : ∀ r ∈ vd.redecls, r.kind = DefKind.tentativeDefinition →
      r.isInclude = true) :
    (insertAlignment mgr decls align arrayDir vd s0).2 = none ∧
    Diag.noProperDefinition vd.name ∈
      (insertAlignment mgr decls align arrayDir vd s0).1.diags ∧
    ∀ e ∈ (insertAlignment mgr decls align arrayDir vd s0).1.edits,
      e ∈ s0.edits ∨ e.2 = arrayDir ∨ e.2 = "\n" := by
  have hfind : vd.redecls.find? (fun r => r.kind == DefKind.definition) =
      none := by
    rw [List.find?_eq_none]
    intro r hr
    simpa using hnodef r hr
  have hfold := insertAlignment_fold_no_def mgr decls align arrayDir
    vd.redecls s0 hnodef htent
  have hres : insertAlignment mgr decls align arrayDir vd s0 =
      ({ (vd.redecls.foldl (insertAlignmentStep mgr decls align arrayDir)
            (s0, none)).1 with
         diags := (vd.redecls.foldl (insertAlignmentStep mgr decls align
            arrayDir) (s0, none)).1.diags ++
          [Diag.insertDirectiveErr vd.loc align.trim,
           Diag.noProperDefinition vd.name] }, none) := by
    unfold insertAlignment
    simp only [hfind, hfold.1]
  rw [hres]
  refine ⟨rfl, ?_, ?_⟩
  · simp
  · intro e he
    exact hfold.2 e he

/-- C9 witness: the amended theorem applied to the concrete variable with one
declaration-only redeclaration. -/
theorem C9_witness :
    Diag.noProperDefinition ("a") ∈
      (insertAlignment c1Mgr [(10, true)] ("#pragma dvm align(x)\n")
        ("#pragma dvm array\n") c9Vd c2State).1.diags :=
  (C9_no_definition_diagnostic c1Mgr [(10, true)] ("#pragma dvm align(x)\n")
    ("#pragma dvm array\n") c9Vd c2State (by decide) (by decide)).2.1

/-- Distribution kinds of one template dimension (`BLOCK` and `NONE` in the
`distRule` switch; the enum is closed, the `default` arm is
`llvm_unreachable`). -/
inductive DistKind where
  | block | nodist
  deriving DecidableEq, Repr

/-- An `apc::Array` standing for a distribution template: its short name and
its per-dimension bounds (`GetSizes`; `GetDimSize` is their number). -/
structure ApcArray where
  shortName : String
  dimSizes : List (Int × Int)
  deriving DecidableEq, Repr

/-- One distribution rule variant: the per-dimension distribution kinds
(`DR.distRule`). -/
structure DistrVariant where
  distRule : List DistKind
  deriving DecidableEq, Repr

/-- Modelled from the spec: `getPragmaText` (declared outside this excerpt)
renders a directive identifier as the literal `#pragma dvm <name>` line
followed by a newline; the source always pops the trailing newline before
appending clauses. -/
def getPragmaText (name : String) : String :=
  "#pragma dvm " ++ name ++ "\n"

/-- The `template ... distribute ...` pragma text built by
`APCDVMHWriter::insertDistibution` before the declaration line is appended:
the pragma keyword, one `[size]` per template dimension, the `distribute`
keyword, and one `[block]` or `[]` token per dimension of the chosen
distribution rule. -/
def distributeText (tpl : ApcArray) (dr : DistrVariant) : String :=
  (getPragmaText ("template")).dropRight 1 ++ " " ++
    String.join (tpl.dimSizes.map (fun d => "[" ++ toString d.2 ++ "]")) ++
    " distribute " ++
    String.join (dr.distRule.map (fun k =>
      match k with
      | DistKind.block => "[block]"
      | DistKind.nodist => "[]")) ++ "\n"

/-- State threaded through `insertDistibution`: the per-file template usage
map with its per-file `HasDefinition` flags (`TemplateInFileUsage`), the
writer state, and the set of templates inserted so far
(`InsertedTemplates`). -/
structure DistState where
  tpls : List (Nat × List (String × Bool))
  writer : WriterState
  insertedTemplates : List String
  deriving Repr

/-- Set the `HasDefinition` flag of template `name` in the per-file map of
file `fid`. -/
def setHasDefinition (tpls : List (Nat × List (String × Bool))) (fid : Nat)
    (name : String) : List (Nat × List (String × Bool)) :=
  tpls.map (fun f =>
    if f.1 = fid then
      (f.1, f.2.map (fun t => if t.1 = name then (t.1, true) else t))
    else f)

/-- The body of the inner loop of `APCDVMHWriter::insertDistibution` for one
file and one distribution rule: skip when the template is unused in the file;
otherwise build the pragma text, report the include-file diagnostics when the
file is an include file, append the `[extern]void *Name;` declaration line
(reading and then setting the per-file `HasDefinition` flag), and insert the
whole text at the end of the file preamble. -/
def insertDistibutionRule (mgr : SrcMgr) (currentVariant : List Nat)
    (fid : Nat) (idx : Nat) (rule : ApcArray × List DistrVariant)
    (st : DistState) : DistState :=
  match alookup ((alookup st.tpls fid).getD []) rule.1.shortName with
  | none => st
  | some hasDef =>
    let dr := rule.2.getD (currentVariant.getD idx 0) { distRule := [] }
    let distribute := distributeText rule.1 dr
    let whereLoc := mgr.startOfFile fid + mgr.preambleSize fid
    let s1 := if mgr.isIncludeFile fid then
        { st.writer with diags := st.writer.diags ++
            [Diag.insertDirectiveErr whereLoc distribute.trim,
             Diag.insertIncludePrevent whereLoc] }
      else st.writer
    let tpls2 := if hasDef then st.tpls
      else setHasDefinition st.tpls fid rule.1.shortName
    let declText := distribute ++ (if hasDef then ("extern") else ("")) ++
      "void *" ++ rule.1.shortName ++ ";\n\n"
    let w2 := getLocationToTransform mgr s1 whereLoc
    let s2 := { s1 with
      edits := s1.edits ++ [(w2, declText)],
      mTransformedFiles :=
        tryEmplace s1.mTransformedFiles (mgr.filenameOf w2) fid }
    { tpls := tpls2, writer := s2,
      insertedTemplates :=
        if rule.1.shortName ∈ st.insertedTemplates then st.insertedTemplates
        else st.insertedTemplates ++ [rule.1.shortName] }

/-- `APCDVMHWriter::insertDistibution`: for every file of the usage map and
every distribution rule in order, process the (file, template) pair; then,
when not every template was inserted somewhere, report the never-placed
diagnostic for each remaining template. -/
def insertDistibution (mgr : SrcMgr)
    (distrRules : List (ApcArray × List DistrVariant))
    (currentVariant : List Nat) (tpls0 : List (Nat × List (String × Bool)))
    (s0 : WriterState) : DistState :=
  let afterFiles := tpls0.foldl
    (fun st f =>
      (distrRules.enum.foldl (fun st2 ri =>
        insertDistibutionRule mgr currentVariant f.1 ri.1 ri.2 st2) st))
    { tpls := tpls0, writer := s0, insertedTemplates := [] }
  if distrRules.length ≠ afterFiles.insertedTemplates.length then
    { afterFiles with writer := { afterFiles.writer with
        diags := afterFiles.writer.diags ++
          distrRules.filterMap (fun r =>
            if r.1.shortName ∈ afterFiles.insertedTemplates then none
            else some (Diag.insertTemplateErr r.1.shortName)) } }
  else afterFiles

/-- A source manager with one file per hundred locations: location `l`
belongs to file `l / 100` whose start is `100 * (l / 100)`. -/
def distMgr : SrcMgr :=
  { filenameOf := fun l => toString (l / 100), fileIdOf := fun l => l / 100,
    offsetOf := fun l => l % 100, startOfFile := fun fid => 100 * fid,
    startOfLine := fun l => l, isMacroLoc := fun _ => false,
    isIncludeFile := fun _ => false, preambleSize := fun _ => 0 }

/-- Like `distMgr`, but file 3 is an include file. -/
def inclMgr : SrcMgr :=
  { distMgr with isIncludeFile := fun fid => fid == 3 }

def c4Tpl : ApcArray := { shortName := "T", dimSizes := [(0, 10)] }

def c4DeclText : String :=
  "#pragma dvm template [10] distribute [block]\nvoid *T;\n\n"

/-- Whether the pattern is a leading run of the text (on character lists). -/
def leadMatch : List Char → List Char → Bool
  | [], _ => true
  | _ :: _, [] => false
  | a :: as, b :: bs => a == b && leadMatch as bs

/-- Whether the pattern occurs anywhere in the text (on character lists). -/
def hasSub (pat : List Char) : List Char → Bool
  | [] => leadMatch pat []
  | b :: bs => leadMatch pat (b :: bs) || hasSub pat bs

/-- C4: with one template used in two ordinary source files, the writer
inserts the non-`extern` definition `void *T;` into BOTH files, because the
`HasDefinition` flag lives in the per-file template map and is therefore read
as false in each file; no inserted text carries the `extern` qualifier, so the
claimed one-definition-plus-extern placement fails. -/
theorem C4_definition_in_every_using_file :
    (insertDistibution distMgr [(c4Tpl, [{ distRule := [DistKind.block] }])]
        [0] [(1, [("T", false)]), (2, [("T", false)])] c2State).writer.edits =
      [(100, c4DeclText), (200, c4DeclText)] ∧
    hasSub (("extern").toList) c4DeclText.toList = false := by
  constructor
  · rfl
  · rfl

/-- C5: with the template used in an include file, the writer reports the
cannot-define-in-include diagnostics but performs the insertion anyway (the
diagnostic branch has no early exit), so the template declaration text is
still inserted into the include file, contrary to the claimed skip. -/
theorem C5_include_file_insertion_not_skipped :
    (insertDistibution inclMgr [(c4Tpl, [{ distRule := [DistKind.block] }])]
        [0] [(3, [("T", false)])] c2State).writer.edits =
      [(300, c4DeclText)] ∧
    Diag.insertIncludePrevent 300 ∈
      (insertDistibution inclMgr [(c4Tpl, [{ distRule := [DistKind.block] }])]
        [0] [(3, [("T", false)])] c2State).writer.diags := by
  constructor
  · rfl
  · decide

/-- Modelled from the spec: each level of a cross-iteration dependence is a
distance range (the external analyzer exposes a map from variable name to
dependence distance ranges).  A level entry is the pair of the minimal and the
maximal distance, each component optional (`Optional<APSInt>`);
`processRegularDependenceis` reads the first component of the first level as
`MinDepth` inside `updatePAD`. -/
abbrev Rng : Type := Option Int × Option Int

/-- One monomial of an affine subscript (`DIAffineSubscript` monom): the loop
(column) it refers to and its coefficient value. -/
structure Monom where
  column : Nat
  value : Int
  deriving DecidableEq, Repr

/-- An affine subscript: the array dimension it indexes and its monomials.
A subscript that is null or not affine is represented as `none` in an access
(both make the scan in `processRegularDependenceis` fail). -/
structure AffineSubscript where
  dimension : Nat
  monoms : List Monom
  deriving DecidableEq, Repr

/-- The monomial loop of `processRegularDependenceis`: a monomial on the
current loop fails when another column was already seen in this subscript or
when a different dimension already owns the loop column, else it marks this
dimension dependent; a monomial on another column fails when the dependent
dimension is this very dimension. -/
def scanMonoms (loopID : Nat) (dim : Nat) (ms : List Monom)
    (depDim : Option Nat) (another : Option Nat) : Option (Option Nat) :=
  match ms with
  | [] => some depDim
  | m :: rest =>
    if m.column = loopID then
      if another.isSome || depDim.any (fun d => d != dim) then none
      else scanMonoms loopID dim rest (some dim) another
    else
      if depDim == some dim then none
      else scanMonoms loopID dim rest depDim (some m.column)

/-- The subscript loop: a null or non-affine subscript aborts the scan. -/
def scanSubscripts (loopID : Nat) (subs : List (Option AffineSubscript))
    (depDim : Option Nat) : Option (Option Nat) :=
  match subs with
  | [] => some depDim
  | none :: _ => none
  | some aff :: rest =>
    match scanMonoms loopID aff.dimension aff.monoms depDim none with
    | none => none
    | some d2 => scanSubscripts loopID rest d2

/-- The access loop: take `NumberOfDims` as the maximal access size and thread
the dependent dimension through all subscripts of all accesses. -/
def scanAccesses (loopID : Nat)
    (accesses : List (List (Option AffineSubscript)))
    (depDim : Option Nat) (numDims : Nat) : Option (Option Nat × Nat) :=
  match accesses with
  | [] => some (depDim, numDims)
  | a :: rest =>
    match scanSubscripts loopID a depDim with
    | none => none
    | some d2 => scanAccesses loopID rest d2 (max numDims a.length)

/-- The inner loop of the `updatePAD` lambda: starting from the second level,
count levels until one whose minimal distance is negative and, negated,
reaches the first-level minimal distance (`MinDepth`), then stop.  The source
dereferences the optional minimal distance unconditionally; absent values are
read as 0 here. -/
def padScan (minDepth : Int) (l : List Rng) (pad : Nat) : Nat :=
  match l with
  | [] => pad
  | p :: rest =>
    if p.1.getD 0 < 0 ∧ -(p.1.getD 0) ≥ minDepth then pad
    else padScan minDepth rest (pad + 1)

/-- The `updatePAD` lambda of `processRegularDependenceis` for one distance
list: when the list is non-empty, bound the running possible-across-depth by
the level scan. -/
def updatePAD (l : List Rng) (pad : Nat) : Nat :=
  match l with
  | [] => pad
  | p :: rest => min pad (padScan (p.1.getD 0) rest 1)

/-- The `getDistance` lambda of `processRegularDependenceis`: the second
component of the first-level distance range, `None` for an empty list. -/
def getDistance (l : List Rng) : Option Int :=
  match l with
  | [] => none
  | p :: _ => p.2

/-- One regular dependence of the loop (an entry of
`ASTDepInfo.get<trait::Dependence>()`): the variable name, the flow and anti
distance lists (one range per nest level), and the array-access records the
external `DIArrayAccessInfo` supplies for the variable in the loop scope
(`none` when the `find_if` over `scope_accesses` finds no record). -/
structure DepEntry where
  name : String
  flow : List Rng
  anti : List Rng
  access : Option (List (List (Option AffineSubscript)))
  deriving Repr

/-- The per-loop dependence record of the external analyzer
(`ClangDependenceAnalyzer::getDependenceInfo`): first/last-private sets, the
loop induction variable name (empty when absent), the privatized set, the
reduction sets partitioned by kind, and the regular dependences. -/
structure DepInfo where
  firstPrivate : Finset String
  lastPrivate : Finset String
  induction : String
  privateVars : Finset String
  reduction : List (Finset String)
  dependence : List DepEntry

/-- Everything `exploitParallelism` consults about one loop: the dependence
record, the loop id, the host-only classification (`ParallelLoopInfo`), the
`evaluateDefUse` result (localization), whether the canonical loop step is a
constant and its sign, whether module access info is available, perfect-nest
membership, and the region count of the loop. -/
structure LoopCtx where
  depInfo : DepInfo
  loopID : Nat
  hostOnly : Bool
  localized : Bool
  hasConstStep : Bool
  stepNegative : Bool
  accessInfoAvailable : Bool
  isPerfect : Bool
  numRegions : Nat

/-- The `PragmaParallel` item state: the finalized flag, the accumulated
private, reduction, dependence (across) and induction clauses, and
`mPossibleAcrossDepth` (`pad`, 0 meaning not yet set). -/
structure Item where
  finalized : Bool
  privateVars : Finset String
  reduction : List (Finset String)
  dependence : List (String × List Rng)
  induction : List Nat
  pad : Nat

def Item.finalize (it : Item) : Item := { it with finalized := true }

/-- `DistanceVector::resize(n)`: keep the prefix, pad with empty ranges. -/
def resizeDV (v : List Rng) (n : Nat) : List Rng :=
  v.take n ++ List.replicate (n - v.length) ((none, none) : Rng)

/-- The dependence clause map update: `emplace` inserts a fresh entry only
when the name is absent, and the following `resize` plus dimension assignment
overwrite the mapped vector in place either way. -/
def upsertDep (m : List (String × List Rng)) (name : String)
    (v : List Rng) : List (String × List Rng) :=
  match alookup m name with
  | none => m ++ [(name, v)]
  | some _ => m.map (fun p => if p.1 = name then (p.1, v) else p)

/-- The per-dependence loop of `processRegularDependenceis`: look up the
access record, scan its subscripts for the dependent dimension, bound the
possible-across-depth by the flow and then the anti distance list, and store
the step-oriented pair of first-level upper distances at the dependent
dimension of the (resized) clause entry; any failure aborts with the
partially updated item (the source `return false` / `return nullptr`). -/
def processDeps (stepNeg : Bool) (loopID : Nat) (deps : List DepEntry)
    (item : Item) (pad : Nat) : Item × Option Nat :=
  match deps with
  | [] => (item, some pad)
  | dep :: rest =>
    match dep.access with
    | none => (item, none)
    | some accesses =>
      match scanAccesses loopID accesses none 0 with
      | none => (item, none)
      | some (none, _) => (item, none)
      | some (some depDim, numDims) =>
        let pad1 := updatePAD dep.flow pad
        let pad2 := updatePAD dep.anti pad1
        let entry := (resizeDV ((alookup item.dependence dep.name).getD [])
            numDims).set depDim
          (if stepNeg then (getDistance dep.anti, getDistance dep.flow)
           else (getDistance dep.flow, getDistance dep.anti))
        processDeps stepNeg loopID rest
          { item with dependence := upsertDep item.dependence dep.name entry }
          pad2

/-- `ClangDVMHSMParallelization::processRegularDependenceis`: succeed at once
when the loop has no regular dependences; fail on a non-constant step (a
diagnostic, not modelled here, is also emitted) or on missing access info;
otherwise initialize the possible depth from the first dependence (its flow
list length, or its anti list length when the flow list is empty), process all
dependences, and on success add the accumulated induction count and bound the
item's possible across depth.  Returns the possibly partially updated item and
the success flag. -/
def processRegularDependenceis (ctx : LoopCtx) (item : Item) : Item × Bool :=
  match ctx.depInfo.dependence with
  | [] => (item, true)
  | first :: rest =>
    if ¬ ctx.hasConstStep then (item, false)
    else if ¬ ctx.accessInfoAvailable then (item, false)
    else
      let pad0 := if first.flow.isEmpty then first.anti.length
        else first.flow.length
      match processDeps ctx.stepNegative ctx.loopID (first :: rest) item
          pad0 with
      | (item1, none) => (item1, false)
      | (item1, some padL) =>
        let padF := padL + item1.induction.length
        (if item1.pad = 0 then { item1 with pad := padF }
         else { item1 with pad := min item1.pad padF }, true)

/-- The shared tail of `exploitParallelism` (the unconditional induction
append and the finalization check): append the loop id to the induction
sequence, then finalize when the item is still open and the loop is not in a
perfect nest, has no enclosed region, or the induction count has reached a
non-zero possible-across-depth ceiling. -/
def exploitTail (ctx : LoopCtx) (item : Item) : Item :=
  let item3 := { item with induction := item.induction ++ [ctx.loopID] }
  if ¬ item3.finalized ∧ (¬ ctx.isPerfect ∨ ctx.numRegions = 0 ∨
      (item3.pad ≠ 0 ∧ item3.induction.length = item3.pad)) then
    Item.finalize item3
  else item3

/-- The `if (PI)` arm of `exploitParallelism`: erase the loop induction
variable from the accumulated private clause (`itemE` is the item after that
erase), finalize on host-only loops or a private/reduction clause mismatch
(re-inserting the induction variable into the private clause), finalize when
the regular dependences fail to process, and otherwise run the shared tail
on the item updated by the dependence processing. -/
def exploitExtend (ctx : LoopCtx) (item : Item) : Item :=
  if ctx.hostOnly ∨
      ctx.depInfo.privateVars ≠
        item.privateVars.erase ctx.depInfo.induction ∨
      ctx.depInfo.reduction ≠ item.reduction then
    Item.finalize
      { item with
        privateVars :=
          insert ctx.depInfo.induction
            (item.privateVars.erase ctx.depInfo.induction) }
  else
    match processRegularDependenceis ctx
        { item with
          privateVars := item.privateVars.erase ctx.depInfo.induction } with
    | (item1, false) => Item.finalize item1
    | (item1, true) => exploitTail ctx item1

/-- The `else` (creation) arm of `exploitParallelism`: build a fresh item from
the loop clauses, drop it when the regular dependences fail to process, apply
the finalization decided by the localization branches (a localized host-only
loop or a non-localized loop without regular dependences finalizes at once),
and run the shared tail. -/
def exploitCreate (ctx : LoopCtx) : Option Item :=
  let item0 : Item :=
    { finalized := false,
      privateVars := ctx.depInfo.privateVars,
      reduction := ctx.depInfo.reduction, dependence := [],
      induction := [], pad := 0 }
  match processRegularDependenceis ctx item0 with
  | (_, false) => none
  | (item1, true) =>
    let item2 :=
      if ¬ ctx.hostOnly ∧ ctx.localized then item1
      else if ctx.localized then
        (if ctx.depInfo.dependence.isEmpty then Item.finalize item1
         else item1)
      else if ctx.depInfo.dependence.isEmpty then Item.finalize item1
      else item1
    some (exploitTail ctx item2)

/-- `ClangDVMHSMParallelization::exploitParallelism` for one loop given the
current item of the nest (`PI`).  A loop with first/last-private variables or
without an induction variable finalizes and keeps the item; otherwise an
existing item goes through the extension arm and a missing one through the
creation arm.  Region/actual bookkeeping is not tracked: only the
`PragmaParallel` item state is modelled, including the finalization decisions
the region branches apply to it. -/
def exploitParallelism (ctx : LoopCtx) (pi : Option Item) : Option Item :=
  if ¬ ctx.depInfo.firstPrivate = ∅ ∨ ¬ ctx.depInfo.lastPrivate = ∅ ∨
      ctx.depInfo.induction = "" then
    pi.map Item.finalize
  else
    match pi with
    | some item => some (exploitExtend ctx item)
    | none => exploitCreate ctx

/-- Modelled from the spec: the traversal driver (`ClangSMParallelization`,
outside this excerpt) walks the loops of a candidate nest outermost to
innermost, passing the current item to `exploitParallelism`; the `Finalized`
state is terminal for the nest, so a finalized item is not offered for further
extension and is preserved as the decision for the nest.  The second component
counts the parallel items created. -/
def processNest (ctxs : List LoopCtx) : Option Item × Nat :=
  ctxs.foldl
    (fun acc ctx =>
      match acc.1 with
      | some item =>
        if item.finalized then acc
        else (exploitParallelism ctx (some item), acc.2)
      | none =>
        match exploitParallelism ctx none with
        | some item => (some item, acc.2 + 1)
        | none => (none, acc.2))
    (none, 0)

/-- All reduction partitions empty. -/
def noReduction : List (Finset String) :=
  List.replicate 7 (∅ : Finset String)

/-- A single one-dimensional affine access with one monomial on the given
loop column. -/
def accessOn (col : Nat) : List (List (Option AffineSubscript)) :=
  [[some { dimension := 0, monoms := [{ column := col, value := 1 }] }]]

def c7Ctx1 : LoopCtx :=
  { depInfo :=
      { firstPrivate := ∅, lastPrivate := ∅, induction := "i",
        privateVars := {"j"}, reduction := noReduction,
        dependence :=
          [{ name := "a", flow := [(some 1, some 1), (some 1, some 1)],
             anti := [], access := some (accessOn 1) }] },
    loopID := 1, hostOnly := false, localized := true, hasConstStep := true,
    stepNegative := false, accessInfoAvailable := true, isPerfect := true,
    numRegions := 1 }

def c7Ctx2 : LoopCtx :=
  { depInfo :=
      { firstPrivate := ∅, lastPrivate := ∅, induction := "j",
        privateVars := ∅, reduction := noReduction,
        dependence :=
          [{ name := "a", flow := [], anti := [],
             access := some (accessOn 2) }] },
    loopID := 2, hostOnly := false, localized := true, hasConstStep := true,
    stepNegative := false, accessInfoAvailable := true, isPerfect := true,
    numRegions := 1 }

/-- C7: a two-loop nest whose outer loop sets a possible-across-depth of 2 and
whose inner loop carries a dependence record with empty flow and anti distance
lists.  Processing leaves the item OPEN with induction length 2 while the
final possible across depth is 1: the induction sequence exceeds the non-zero
ceiling instead of the item being finalized at it (a further call would fail
the source assertion "Maximum depth of a parallel nest has been
exceeded!"). -/
theorem C7_induction_exceeds_depth :
    ((processNest [c7Ctx1, c7Ctx2]).1.map
      (fun it => (it.finalized, it.induction.length, it.pad))) =
        some (false, 2, 1) ∧
    (processNest [c7Ctx1, c7Ctx2]).2 = 1 := by
  constructor
  · rfl
  · rfl

/-- An empty parallel item, as created by `exploitParallelism` before clause
accumulation. -/
def c6Item0 : Item :=
  { finalized := false, privateVars := ∅, reduction := noReduction,
    dependence := [], induction := [], pad := 0 }

/-- A one-loop context with a single regular dependence carrying the given
distance lists and a one-dimensional affine access on the loop. -/
def c6mkCtx (stepNeg : Bool) (name : String) (flow anti : List Rng) :
    LoopCtx :=
  { depInfo :=
      { firstPrivate := ∅, lastPrivate := ∅, induction := "i",
        privateVars := ∅, reduction := noReduction,
        dependence :=
          [{ name := name, flow := flow, anti := anti,
             access := some (accessOn 1) }] },
    loopID := 1, hostOnly := false, localized := true, hasConstStep := true,
    stepNegative := stepNeg, accessInfoAvailable := true, isPerfect := true,
    numRegions := 1 }

/-- C6 counterexample: a flow distance range with minimum 1 and maximum 3 and
an anti distance range with minimum 2 and maximum 5 on a positive-step loop.
The pair recorded in the dependent dimension is (3, 5) — the second (upper)
range components — not the pair (1, 2) of minimal distances that the claim
states. -/
theorem C6_counterexample :
    (processRegularDependenceis (c6mkCtx false ("a") [(some 1, some 3)]
        [(some 2, some 5)]) c6Item0).1.dependence =
      [(("a" : String), [((some 3 : Option Int), (some 5 : Option Int))])] ∧
    ¬ ((processRegularDependenceis (c6mkCtx false ("a") [(some 1, some 3)]
        [(some 2, some 5)]) c6Item0).1.dependence =
      [(("a" : String),
        [((some 1 : Option Int), (some 2 : Option Int))])]) := by
  constructor
  · rfl
  · decide

/-- C6 (amended): the across pair recorded for a regular dependence in the
dependent dimension is the pair of the second (upper-bound) components of the
first-level flow and anti distance ranges, ordered (flow, anti) for a positive
step and swapped to (anti, flow) for a negative step; in the scenario of an
exact flow distance 1 and exact anti distance 2 on an ascending loop, the
dependent dimension records (1, 2) and the possible across depth becomes 1. -/
theorem C6_upper_bound_distances :
    (∀ (stepNeg : Bool) (name : String) (f1 a1 : Rng) (fr ar : List Rng)
      (item : Item), item.dependence = [] →
      (processRegularDependenceis (c6mkCtx stepNeg name (f1 :: fr) (a1 :: ar))
          item).1.dependence =
        [(name, [if stepNeg then (a1.2, f1.2) else (f1.2, a1.2)])]) ∧
    ((processRegularDependenceis (c6mkCtx false ("a") [(some 1, some 1)]
        [(some 2, some 2)]) c6Item0).1.dependence =
      [(("a" : String), [((some 1 : Option Int), (some 2 : Option Int))])] ∧
     (processRegularDependenceis (c6mkCtx false ("a") [(some 1, some 1)]
        [(some 2, some 2)]) c6Item0).1.pad = 1 ∧
     (processRegularDependenceis (c6mkCtx false ("a") [(some 1, some 1)]
        [(some 2, some 2)]) c6Item0).2 = true) := by
  refine ⟨?_, rfl, rfl, rfl⟩
  intro stepNeg name f1 a1 fr ar item hdep
  cases stepNeg <;>
    simp [processRegularDependenceis, c6mkCtx, processDeps, scanAccesses,
      scanSubscripts, scanMonoms, accessOn, resizeDV, upsertDep, getDistance,
      alookup, hdep, apply_ite]

/-- C6 witness: the amended theorem at a negative-step input records the
swapped pair of upper-bound components. -/
theorem C6_witness :
    (processRegularDependenceis (c6mkCtx true ("b") [(some 1, some 4)]
        [(some 2, some 6)]) c6Item0).1.dependence =
      [(("b" : String), [((some 6 : Option Int), (some 4 : Option Int))])] :=
  C6_upper_bound_distances.1 true ("b") (some 1, some 4) (some 2, some 6)
    [] [] c6Item0 rfl

theorem Item.finalize_induction (it : Item) :
    (Item.finalize it).induction = it.induction := rfl

theorem processDeps_preserves (stepNeg : Bool) (loopID : Nat)
    (deps : List DepEntry) (item : Item) (pad : Nat) :
    (processDeps stepNeg loopID deps item pad).1.induction = item.induction ∧
    (processDeps stepNeg loopID deps item pad).1.finalized =
      item.finalized ∧
    (processDeps stepNeg loopID deps item pad).1.pad = item.pad := by
  induction deps generalizing item pad with
  | nil => exact ⟨rfl, rfl, rfl⟩
  | cons dep rest ih =>
    cases ha : dep.access with
    | none => simp [processDeps, ha]
    | some accesses =>
      cases hsc : scanAccesses loopID accesses none 0 with
      | none => simp [processDeps, ha, hsc]
      | some pr =>
        rcases pr with ⟨dd, nd⟩
        cases dd with
        | none => simp [processDeps, ha, hsc]
        | some depDim =>
          simp only [processDeps, ha, hsc]
          exact ih _ _

theorem processRegular_preserves (ctx : LoopCtx) (item : Item) :
    (processRegularDependenceis ctx item).1.induction = item.induction ∧
    (processRegularDependenceis ctx item).1.finalized = item.finalized := by
  cases hd : ctx.depInfo.dependence with
  | nil => simp [processRegularDependenceis, hd]
  | cons first rest =>
    by_cases h1 : ctx.hasConstStep
    · by_cases h2 : ctx.accessInfoAvailable
      · cases hp : processDeps ctx.stepNegative ctx.loopID (first :: rest)
            item (if first.flow.isEmpty then first.anti.length
              else first.flow.length) with
        | mk item1 res =>
          have hpres := processDeps_preserves ctx.stepNegative ctx.loopID
            (first :: rest) item (if first.flow.isEmpty then
              first.anti.length else first.flow.length)
          rw [hp] at hpres
          cases res with
          | none =>
            simp only [processRegularDependenceis, hd, h1, h2, hp,
              not_true, if_false]
            exact ⟨hpres.1, hpres.2.1⟩
          | some padL =>
            simp only [processRegularDependenceis, hd, h1, h2, hp,
              not_true, if_false]
            by_cases hz : item1.pad = 0
            · simp only [hz, if_pos]
              exact ⟨hpres.1, hpres.2.1⟩
            · simp only [hz, if_neg, if_false]
              exact ⟨hpres.1, hpres.2.1⟩
      · simp [processRegularDependenceis, hd, h1, h2]
    · simp [processRegularDependenceis, hd, h1]

theorem exploitTail_induction (ctx : LoopCtx) (it : Item) :
    (exploitTail ctx it).induction = it.induction ++ [ctx.loopID] := by
  simp only [exploitTail]
  split
  · rfl
  · rfl

theorem exploitParallelism_some (ctx : LoopCtx) (item : Item)
    (h1 : ctx.depInfo.firstPrivate = ∅) (h2 : ctx.depInfo.lastPrivate = ∅)
    (h3 : ctx.depInfo.induction ≠ "") :
    exploitParallelism ctx (some item) = some (exploitExtend ctx item) := by
  have hq : ¬ (¬ ctx.depInfo.firstPrivate = ∅ ∨
      ¬ ctx.depInfo.lastPrivate = ∅ ∨ ctx.depInfo.induction = "") := by
    push_neg
    exact ⟨h1, h2, h3⟩
  unfold exploitParallelism
  rw [if_neg hq]

def c8Item : Item :=
  { finalized := false, privateVars := {"j"}, reduction := noReduction,
    dependence := [], induction := [7], pad := 0 }

def c8Ctx : LoopCtx :=
  { depInfo :=
      { firstPrivate := ∅, lastPrivate := ∅, induction := "j",
        privateVars := ∅, reduction := noReduction,
        dependence :=
          [{ name := "a", flow := [(some 1, some 1)], anti := [],
             access := some (accessOn 2) }] },
    loopID := 2, hostOnly := false, localized := true, hasConstStep := false,
    stepNegative := false, accessInfoAvailable := true, isPerfect := true,
    numRegions := 1 }

/-- C8 counterexample: a loop that is not host-only and whose privatized set
(after the induction-variable erase) and reduction sets match the open item
exactly, but which carries a regular dependence on a non-constant-step loop.
The item is finalized WITHOUT being extended (induction length stays 1), so
not-host-only plus matching clause sets do not suffice for extension, against
the claimed if-and-only-if. -/
theorem C8_counterexample :
    c8Ctx.hostOnly = false ∧
    c8Ctx.depInfo.privateVars =
      c8Item.privateVars.erase c8Ctx.depInfo.induction ∧
    c8Ctx.depInfo.reduction = c8Item.reduction ∧
    (exploitParallelism c8Ctx (some c8Item)).map
      (fun it => (it.finalized, it.induction.length)) = some (true, 1) := by
  refine ⟨rfl, by decide, rfl, rfl⟩

def c8B1 : LoopCtx :=
  { depInfo :=
      { firstPrivate := ∅, lastPrivate := ∅, induction := "i",
        privateVars := {"j"}, reduction := noReduction, dependence := [] },
    loopID := 11, hostOnly := false, localized := true, hasConstStep := true,
    stepNegative := false, accessInfoAvailable := true, isPerfect := true,
    numRegions := 1 }

def c8B2 : LoopCtx :=
  { depInfo :=
      { firstPrivate := ∅, lastPrivate := ∅, induction := "j",
        privateVars := ∅, reduction := noReduction, dependence := [] },
    loopID := 12, hostOnly := false, localized := true, hasConstStep := true,
    stepNegative := false, accessInfoAvailable := true, isPerfect := true,
    numRegions := 0 }

/-- C8 (amended): an open item offered a qualifying loop (no first/last
privates, an induction variable) is extended — its induction sequence grows by
one — exactly when the loop is not host-only, its privatized set equals the
item's accumulated private clause after the loop induction variable is erased
from it, its reduction sets equal the item's, AND the regular cross-iteration
dependence processing of the loop succeeds (vacuously true without regular
dependences); any failure finalizes the item unextended.  Consequently two
perfectly nested matching loops yield one item created and a single
two-dimension induction sequence, not two one-dimension items. -/
theorem C8_extension_criteria :
    (∀ (ctx : LoopCtx) (item : Item), item.finalized = false →
      ctx.depInfo.firstPrivate = ∅ → ctx.depInfo.lastPrivate = ∅ →
      ctx.depInfo.induction ≠ "" →
      ((exploitParallelism ctx (some item)).map
          (fun it => it.induction.length) =
        some (item.induction.length + 1) ↔
        (ctx.hostOnly = false ∧
         ctx.depInfo.privateVars =
           item.privateVars.erase ctx.depInfo.induction ∧
         ctx.depInfo.reduction = item.reduction ∧
         (processRegularDependenceis ctx
           { item with
             privateVars :=
               item.privateVars.erase ctx.depInfo.induction }).2 = true))) ∧
    ((processNest [c8B1, c8B2]).2 = 1 ∧
     (processNest [c8B1, c8B2]).1.map (fun it => it.induction) =
       some [11, 12]) := by
  refine ⟨?_, rfl, rfl⟩
  intro ctx item hfin h1 h2 h3
  rw [exploitParallelism_some ctx item h1 h2 h3]
  simp only [Option.map_some']
  rw [Option.some_inj]
  by_cases hC : (ctx.hostOnly : Prop) ∨
      ctx.depInfo.privateVars ≠
        item.privateVars.erase ctx.depInfo.induction ∨
      ctx.depInfo.reduction ≠ item.reduction
  · rw [show exploitExtend ctx item = Item.finalize
        { item with
          privateVars :=
            insert ctx.depInfo.induction
              (item.privateVars.erase ctx.depInfo.induction) } from by
      unfold exploitExtend
      rw [if_pos hC]]
    constructor
    · intro hlen
      exfalso
      simp only [Item.finalize_induction] at hlen
      omega
    · rintro ⟨hh, hp, hr, _⟩
      exfalso
      rcases hC with hb | hpp | hrr
      · rw [hh] at hb
        exact absurd hb (by simp)
      · exact hpp hp
      · exact hrr hr
  · rw [show exploitExtend ctx item =
        (match processRegularDependenceis ctx
            { item with
              privateVars :=
                item.privateVars.erase ctx.depInfo.induction } with
          | (item1, false) => Item.finalize item1
          | (item1, true) => exploitTail ctx item1) from by
      unfold exploitExtend
      rw [if_neg hC]]
    push_neg at hC
    obtain ⟨hh, hp, hr⟩ := hC
    have hhf : ctx.hostOnly = false := by
      cases hb : ctx.hostOnly
      · rfl
      · exact absurd hb hh
    cases hreg : processRegularDependenceis ctx
        { item with
          privateVars := item.privateVars.erase ctx.depInfo.induction } with
    | mk item1 ok =>
      have hpres := processRegular_preserves ctx
        { item with
          privateVars := item.privateVars.erase ctx.depInfo.induction }
      rw [hreg] at hpres
      cases ok with
      | false =>
        simp only [hreg]
        constructor
        · intro hlen
          exfalso
          have hlen1 : item1.induction = item.induction := hpres.1
          simp only [Item.finalize_induction, hlen1] at hlen
          omega
        · rintro ⟨_, _, _, htrue⟩
          exact absurd htrue (by simp)
      | true =>
        simp only [hreg]
        constructor
        · intro _
          exact ⟨hhf, hp, hr, trivial⟩
        · intro _
          have hlen1 : item1.induction = item.induction := hpres.1
          rw [exploitTail_induction, List.length_append, hlen1]
          simp

def c8WitItem : Item :=
  { finalized := false, privateVars := {"j"}, reduction := noReduction,
    dependence := [], induction := [11], pad := 0 }

/-- C8 witness: the amended criteria at a concrete matching loop: the open
item is extended and its induction sequence grows to length 2. -/
theorem C8_witness :
    (exploitParallelism c8B2 (some c8WitItem)).map
      (fun it => it.induction.length) = some 2 :=
  (C8_extension_criteria.1 c8B2 c8WitItem rfl rfl rfl (by decide)).mpr
    ⟨rfl, by decide, rfl, rfl⟩
